import Mathlib

/-!
Verification of the snakegram MTProto client core against its specification.

Bytes are modelled as `List Nat` (one entry per byte).  Python integers are
modelled as `Int` (or `Nat` where the source value is provably non-negative).
Fallible Python functions are modelled as `Except PyExc` values.  The AES-256
block cipher and `os.urandom` come from third-party libraries, so they enter
the embedding as explicit function parameters; the theorems that need their
defining properties (block decryption inverts block encryption, blocks keep
their 16-byte size, `urandom n` has `n` bytes) take those properties as
hypotheses.
-/

/-- Python exceptions raised by the embedded code. -/
inductive PyExc where
  | valueError (msg : String)
  | securityError (msg : String)
  | attributeError (msg : String)
deriving DecidableEq

/-- crypto.utils.xor: bitwise XOR of two equal-length byte strings. -/
def xorBytes (t1 t2 : List Nat) : List Nat :=
  List.zipWith (fun a b => a ^^^ b) t1 t2

/-- Fuel-indexed splitting of a byte string into chunks of `k` bytes
(the Python loops slice `k` bytes at a time); the fuel is the list length,
which always suffices. -/
def chunksAux (k : Nat) : Nat → List Nat → List (List Nat)
  | 0, _ => []
  | _ + 1, [] => []
  | n + 1, x :: xs => (x :: xs).take k :: chunksAux k n ((x :: xs).drop k)

/-- Split a byte string into consecutive chunks of `k` bytes. -/
def chunks (k : Nat) (l : List Nat) : List (List Nat) :=
  chunksAux k l.length l

/-- The block loop of aes_ige256_encrypt (aes.py lines 75-82): for each
16-byte chunk, `block = E(chunk XOR iv1)`, output `iv1' = block XOR iv2`,
then continue with `iv1 := iv1'` and `iv2 := chunk`. -/
def igeEncLoop (E : List Nat → List Nat) : List (List Nat) → List Nat → List Nat → List Nat
  | [], _, _ => []
  | chunk :: rest, iv1, iv2 =>
      let block := E (xorBytes chunk iv1)
      let out := xorBytes block iv2
      out ++ igeEncLoop E rest out chunk

/-- The block loop of aes_ige256_decrypt (aes.py lines 109-116): for each
16-byte chunk, `block = D(chunk XOR iv2)`, output `iv2' = block XOR iv1`,
then continue with `iv1 := chunk` and `iv2 := iv2'`. -/
def igeDecLoop (D : List Nat → List Nat) : List (List Nat) → List Nat → List Nat → List Nat
  | [], _, _ => []
  | chunk :: rest, iv1, iv2 =>
      let block := D (xorBytes chunk iv2)
      let out := xorBytes block iv1
      out ++ igeDecLoop D rest chunk out

/-- aes.py aes_ige256_encrypt.  `E` is the AES-256-ECB single-block
encryption of the key (library code), `urandom` is os.urandom. -/
def aes_ige256_encrypt (E : List Nat → List Nat) (urandom : Nat → List Nat)
    (plain_text key iv : List Nat) : Except PyExc (List Nat) :=
  if key.length ≠ 32 ∨ iv.length ≠ 32 then
    .error (.valueError "Key and IV must both be 32 bytes.")
  else
    let padded :=
      if plain_text.length % 16 ≠ 0 then
        plain_text ++ urandom (16 - plain_text.length % 16)
      else plain_text
    .ok (igeEncLoop E (chunks 16 padded) (iv.take 16) (iv.drop 16))

/-- aes.py aes_ige256_decrypt.  `D` is the AES-256-ECB single-block
decryption of the key (library code). -/
def aes_ige256_decrypt (D : List Nat → List Nat)
    (cipher_text key iv : List Nat) : Except PyExc (List Nat) :=
  if key.length ≠ 32 ∨ iv.length ≠ 32 then
    .error (.valueError "Key and IV must both be 32 bytes.")
  else if cipher_text.length % 16 ≠ 0 then
    .error (.valueError "Cipher-text length must be a multiple of 16.")
  else
    .ok (igeDecLoop D (chunks 16 cipher_text) (iv.take 16) (iv.drop 16))

-- Basic lemmas about the byte utilities.

theorem xorBytes_length (a b : List Nat) :
    (xorBytes a b).length = min a.length b.length := by
  simp [xorBytes]

theorem xorBytes_xorBytes_cancel :
    ∀ (a b : List Nat), a.length = b.length → xorBytes (xorBytes a b) b = a := by
  intro a
  induction a with
  | nil => intro b h; simp [xorBytes]
  | cons x xs ih =>
      intro b h
      cases b with
      | nil => simp at h
      | cons y ys =>
          have hxy : x ^^^ y ^^^ y = x := Nat.xor_cancel_right y x
          have hlen : xs.length = ys.length := by simpa using h
          simp only [xorBytes] at ih ⊢
          simp only [List.zipWith_cons_cons, hxy]
          exact congrArg (List.cons x) (ih ys hlen)

theorem chunksAux_fuel :
    ∀ (n m : Nat) (l : List Nat), l.length ≤ n → l.length ≤ m →
      chunksAux 16 n l = chunksAux 16 m l := by
  intro n
  induction n with
  | zero =>
      intro m l hn _
      have : l = [] := List.eq_nil_of_length_eq_zero (by omega)
      subst this
      cases m <;> rfl
  | succ n ih =>
      intro m l hn hm
      cases l with
      | nil => cases m <;> rfl
      | cons x xs =>
          cases m with
          | zero => simp at hm
          | succ m =>
              simp only [chunksAux]
              congr 1
              apply ih
              · simp only [List.length_drop]
                simp at hn ⊢
                omega
              · simp only [List.length_drop]
                simp at hm ⊢
                omega

theorem chunks16_append (b r : List Nat) (hb : b.length = 16) :
    chunks 16 (b ++ r) = b :: chunks 16 r := by
  have hne : b ++ r ≠ [] := by
    intro h
    have := congrArg List.length h
    simp [hb] at this
  obtain ⟨x, xs, hbr⟩ := List.exists_cons_of_ne_nil hne
  have hlen : (b ++ r).length = 15 + r.length + 1 := by
    simp only [List.length_append, hb]
    omega
  unfold chunks
  rw [hlen, hbr]
  simp only [chunksAux]
  rw [← hbr, List.take_left' hb, List.drop_left' hb]
  congr 1
  exact chunksAux_fuel _ _ _ (by omega) (le_refl _)

theorem chunksAux_flatten :
    ∀ (n : Nat) (l : List Nat), l.length ≤ n → (chunksAux 16 n l).flatten = l := by
  intro n
  induction n with
  | zero =>
      intro l h
      have : l = [] := List.eq_nil_of_length_eq_zero (by omega)
      subst this; rfl
  | succ n ih =>
      intro l h
      cases l with
      | nil => rfl
      | cons x xs =>
          simp only [chunksAux, List.flatten_cons]
          rw [ih ((x :: xs).drop 16)
            (by rw [List.length_drop]; simp only [List.length_cons] at h ⊢; omega)]
          exact List.take_append_drop 16 (x :: xs)

theorem chunks16_flatten (l : List Nat) : (chunks 16 l).flatten = l :=
  chunksAux_flatten l.length l (le_refl _)

theorem chunksAux_mem_length :
    ∀ (n : Nat) (l : List Nat), l.length ≤ n → l.length % 16 = 0 →
      ∀ b ∈ chunksAux 16 n l, b.length = 16 := by
  intro n
  induction n with
  | zero => intro l _ _ b hb; cases l <;> simp [chunksAux] at hb
  | succ n ih =>
      intro l hn hmod b hb
      cases l with
      | nil => simp [chunksAux] at hb
      | cons x xs =>
          simp only [chunksAux, List.mem_cons] at hb
          rcases hb with hb | hb
          · subst hb
            rw [List.length_take]
            simp only [List.length_cons] at hmod ⊢
            omega
          · refine ih _ ?_ ?_ b hb
            · rw [List.length_drop]
              simp only [List.length_cons] at hn ⊢
              omega
            · rw [List.length_drop]
              simp only [List.length_cons] at hmod ⊢
              omega

theorem chunks16_mem_length (l : List Nat) (hmod : l.length % 16 = 0) :
    ∀ b ∈ chunks 16 l, b.length = 16 :=
  chunksAux_mem_length l.length l (le_refl _) hmod

-- Lengths of the IGE loops.

theorem igeEncLoop_length (E : List Nat → List Nat)
    (hE : ∀ b, b.length = 16 → (E b).length = 16) :
    ∀ (bs : List (List Nat)) (iv1 iv2 : List Nat),
      (∀ b ∈ bs, b.length = 16) → iv1.length = 16 → iv2.length = 16 →
      (igeEncLoop E bs iv1 iv2).length = 16 * bs.length := by
  intro bs
  induction bs with
  | nil => intro iv1 iv2 _ _ _; rfl
  | cons c cs ih =>
      intro iv1 iv2 hbs h1 h2
      have hc : c.length = 16 := hbs c (List.mem_cons_self c cs)
      have hx1 : (xorBytes c iv1).length = 16 := by rw [xorBytes_length, hc, h1]; rfl
      have hEb : (E (xorBytes c iv1)).length = 16 := hE _ hx1
      have hout : (xorBytes (E (xorBytes c iv1)) iv2).length = 16 := by
        rw [xorBytes_length, hEb, h2]; rfl
      simp only [igeEncLoop, List.length_append, List.length_cons]
      rw [hout, ih _ _ (fun b hb => hbs b (List.mem_cons_of_mem c hb)) hout hc]
      ring

theorem igeDecLoop_length (D : List Nat → List Nat)
    (hD : ∀ b, b.length = 16 → (D b).length = 16) :
    ∀ (bs : List (List Nat)) (iv1 iv2 : List Nat),
      (∀ b ∈ bs, b.length = 16) → iv1.length = 16 → iv2.length = 16 →
      (igeDecLoop D bs iv1 iv2).length = 16 * bs.length := by
  intro bs
  induction bs with
  | nil => intro iv1 iv2 _ _ _; rfl
  | cons c cs ih =>
      intro iv1 iv2 hbs h1 h2
      have hc : c.length = 16 := hbs c (List.mem_cons_self c cs)
      have hx2 : (xorBytes c iv2).length = 16 := by rw [xorBytes_length, hc, h2]; rfl
      have hDb : (D (xorBytes c iv2)).length = 16 := hD _ hx2
      have hout : (xorBytes (D (xorBytes c iv2)) iv1).length = 16 := by
        rw [xorBytes_length, hDb, h1]; rfl
      simp only [igeDecLoop, List.length_append, List.length_cons]
      rw [hout, ih _ _ (fun b hb => hbs b (List.mem_cons_of_mem c hb)) hc hout]
      ring

-- The block-level IGE round trip.

theorem igeDecLoop_igeEncLoop (E D : List Nat → List Nat)
    (hED : ∀ b, b.length = 16 → D (E b) = b)
    (hE : ∀ b, b.length = 16 → (E b).length = 16) :
    ∀ (bs : List (List Nat)) (iv1 iv2 : List Nat),
      (∀ b ∈ bs, b.length = 16) → iv1.length = 16 → iv2.length = 16 →
      igeDecLoop D (chunks 16 (igeEncLoop E bs iv1 iv2)) iv1 iv2 = bs.flatten := by
  intro bs
  induction bs with
  | nil => intro iv1 iv2 _ _ _; rfl
  | cons c cs ih =>
      intro iv1 iv2 hbs h1 h2
      have hc : c.length = 16 := hbs c (List.mem_cons_self c cs)
      have hx1 : (xorBytes c iv1).length = 16 := by rw [xorBytes_length, hc, h1]; rfl
      have hEb : (E (xorBytes c iv1)).length = 16 := hE _ hx1
      have hout : (xorBytes (E (xorBytes c iv1)) iv2).length = 16 := by
        rw [xorBytes_length, hEb, h2]; rfl
      simp only [igeEncLoop]
      rw [chunks16_append _ _ hout]
      simp only [igeDecLoop]
      rw [xorBytes_xorBytes_cancel _ _ (hEb.trans h2.symm)]
      rw [hED _ hx1]
      rw [xorBytes_xorBytes_cancel _ _ (hc.trans h1.symm)]
      rw [ih _ _ (fun b hb => hbs b (List.mem_cons_of_mem c hb)) hout hc]
      rfl

theorem chunksAux_count :
    ∀ (n : Nat) (l : List Nat), l.length ≤ n →
      (chunksAux 16 n l).length = (l.length + 15) / 16 := by
  intro n
  induction n with
  | zero =>
      intro l h
      have : l = [] := List.eq_nil_of_length_eq_zero (by omega)
      subst this; rfl
  | succ n ih =>
      intro l h
      cases l with
      | nil => rfl
      | cons x xs =>
          simp only [chunksAux, List.length_cons]
          rw [ih ((x :: xs).drop 16)
            (by rw [List.length_drop]; simp only [List.length_cons] at h ⊢; omega)]
          rw [List.length_drop]
          simp only [List.length_cons]
          omega

theorem chunks16_count (l : List Nat) :
    (chunks 16 l).length = (l.length + 15) / 16 :=
  chunksAux_count l.length l (le_refl _)

/-- C7: for every 32-byte key, 32-byte iv and plaintext whose length is a
multiple of 16, aes_ige256_decrypt(aes_ige256_encrypt(p, k, iv), k, iv) = p.
The AES block maps E and D are abstract: it is assumed that D inverts E on
16-byte blocks and that E preserves the 16-byte block size. -/
theorem aes_ige256_encrypt_decrypt_roundtrip
    (E D : List Nat → List Nat) (urandom : Nat → List Nat)
    (p key iv : List Nat)
    (hk : key.length = 32) (hiv : iv.length = 32) (hp : p.length % 16 = 0)
    (hED : ∀ b, b.length = 16 → D (E b) = b)
    (hE : ∀ b, b.length = 16 → (E b).length = 16) :
    (aes_ige256_encrypt E urandom p key iv).bind
      (fun ct => aes_ige256_decrypt D ct key iv) = .ok p := by
  have hcond : ¬(key.length ≠ 32 ∨ iv.length ≠ 32) := by omega
  have hpad : ¬(p.length % 16 ≠ 0) := by omega
  have henc : aes_ige256_encrypt E urandom p key iv
      = .ok (igeEncLoop E (chunks 16 p) (iv.take 16) (iv.drop 16)) := by
    unfold aes_ige256_encrypt
    rw [if_neg hcond, if_neg hpad]
  rw [henc]
  show aes_ige256_decrypt D (igeEncLoop E (chunks 16 p) (iv.take 16) (iv.drop 16)) key iv
      = .ok p
  have hblocks : ∀ b ∈ chunks 16 p, b.length = 16 := chunks16_mem_length p hp
  have hiv1 : (iv.take 16).length = 16 := by rw [List.length_take]; omega
  have hiv2 : (iv.drop 16).length = 16 := by rw [List.length_drop]; omega
  have hclen : (igeEncLoop E (chunks 16 p) (iv.take 16) (iv.drop 16)).length
      = 16 * (chunks 16 p).length :=
    igeEncLoop_length E hE _ _ _ hblocks hiv1 hiv2
  unfold aes_ige256_decrypt
  rw [if_neg hcond, if_neg (by omega :
    ¬((igeEncLoop E (chunks 16 p) (iv.take 16) (iv.drop 16)).length % 16 ≠ 0))]
  rw [igeDecLoop_igeEncLoop E D hED hE _ _ _ hblocks hiv1 hiv2, chunks16_flatten]

/-- Closed instance of the C7 round trip at a concrete input (identity block
cipher, all-zero key and iv, plaintext of 16 sevens). -/
theorem aes_ige256_encrypt_decrypt_roundtrip_witness :
    (aes_ige256_encrypt id (fun n => List.replicate n 0)
        (List.replicate 16 7) (List.replicate 32 0) (List.replicate 32 0)).bind
      (fun ct => aes_ige256_decrypt id ct (List.replicate 32 0) (List.replicate 32 0))
      = .ok (List.replicate 16 7) :=
  aes_ige256_encrypt_decrypt_roundtrip id id (fun n => List.replicate n 0)
    (List.replicate 16 7) (List.replicate 32 0) (List.replicate 32 0)
    (by decide) (by decide) (by decide) (fun _ _ => rfl) (fun _ h => h)

/-- C10: with a 32-byte key and iv, aes_ige256_decrypt fails with ValueError
exactly when the ciphertext length is not a multiple of 16, and otherwise
returns a plaintext of the same length as the ciphertext; aes_ige256_encrypt
accepts any plaintext length and returns a ciphertext whose length is the
plaintext length rounded up to a multiple of 16 (padding with random bytes). -/
theorem aes_ige256_length_behaviour
    (E D : List Nat → List Nat) (urandom : Nat → List Nat)
    (p ct key iv : List Nat)
    (hk : key.length = 32) (hiv : iv.length = 32)
    (hE : ∀ b, b.length = 16 → (E b).length = 16)
    (hD : ∀ b, b.length = 16 → (D b).length = 16)
    (hrnd : ∀ n, (urandom n).length = n) :
    (ct.length % 16 ≠ 0 →
      aes_ige256_decrypt D ct key iv
        = .error (.valueError "Cipher-text length must be a multiple of 16.")) ∧
    (ct.length % 16 = 0 →
      ∃ r, aes_ige256_decrypt D ct key iv = .ok r ∧ r.length = ct.length) ∧
    (∃ c, aes_ige256_encrypt E urandom p key iv = .ok c ∧
      c.length = 16 * ((p.length + 15) / 16)) := by
  have hcond : ¬(key.length ≠ 32 ∨ iv.length ≠ 32) := by omega
  have hiv1 : (iv.take 16).length = 16 := by rw [List.length_take]; omega
  have hiv2 : (iv.drop 16).length = 16 := by rw [List.length_drop]; omega
  refine ⟨?_, ?_, ?_⟩
  · intro hmod
    unfold aes_ige256_decrypt
    rw [if_neg hcond, if_pos hmod]
  · intro hmod
    refine ⟨igeDecLoop D (chunks 16 ct) (iv.take 16) (iv.drop 16), ?_, ?_⟩
    · unfold aes_ige256_decrypt
      rw [if_neg hcond, if_neg (by omega : ¬(ct.length % 16 ≠ 0))]
    · rw [igeDecLoop_length D hD _ _ _ (chunks16_mem_length ct hmod) hiv1 hiv2,
        chunks16_count]
      omega
  · by_cases hpad : p.length % 16 ≠ 0
    · refine ⟨igeEncLoop E (chunks 16 (p ++ urandom (16 - p.length % 16)))
        (iv.take 16) (iv.drop 16), ?_, ?_⟩
      · unfold aes_ige256_encrypt
        rw [if_neg hcond]
        simp only [if_pos hpad]
      · have hplen : (p ++ urandom (16 - p.length % 16)).length % 16 = 0 := by
          rw [List.length_append, hrnd]
          omega
        rw [igeEncLoop_length E hE _ _ _ (chunks16_mem_length _ hplen) hiv1 hiv2,
          chunks16_count, List.length_append, hrnd]
        omega
    · refine ⟨igeEncLoop E (chunks 16 p) (iv.take 16) (iv.drop 16), ?_, ?_⟩
      · unfold aes_ige256_encrypt
        rw [if_neg hcond]
        simp only [if_neg hpad]
      · have hmod : p.length % 16 = 0 := by omega
        rw [igeEncLoop_length E hE _ _ _ (chunks16_mem_length _ hmod) hiv1 hiv2,
          chunks16_count]

/-- Closed instance of the C10 length behaviour with the identity block
cipher, a 1-byte ciphertext and a 3-byte plaintext. -/
theorem aes_ige256_length_behaviour_witness :
    ((([5] : List Nat).length % 16 ≠ 0 →
      aes_ige256_decrypt id [5] (List.replicate 32 0) (List.replicate 32 0)
        = .error (.valueError "Cipher-text length must be a multiple of 16.")) ∧
    (([5] : List Nat).length % 16 = 0 →
      ∃ r, aes_ige256_decrypt id [5] (List.replicate 32 0) (List.replicate 32 0)
        = .ok r ∧ r.length = ([5] : List Nat).length) ∧
    (∃ c, aes_ige256_encrypt id (fun n => List.replicate n 0) [1, 2, 3]
        (List.replicate 32 0) (List.replicate 32 0) = .ok c ∧
      c.length = 16 * ((([1, 2, 3] : List Nat).length + 15) / 16))) :=
  aes_ige256_length_behaviour id id (fun n => List.replicate n 0) [1, 2, 3] [5]
    (List.replicate 32 0) (List.replicate 32 0)
    (by decide) (by decide) (fun _ h => h) (fun _ h => h)
    (fun n => List.length_replicate n 0)

-- SHA-1 (the hashlib primitive behind crypto.utils.sha1), implemented from
-- FIPS 180; needed to evaluate the hash-verification loop concretely.

def pow32 : Nat := 4294967296

/-- 32-bit left rotation. -/
def rotl32 (n x : Nat) : Nat :=
  ((x <<< n) ||| (x >>> (32 - n))) % pow32

/-- Big-endian bytes of a value, `k` bytes wide. -/
def natToBytesBE : Nat → Nat → List Nat
  | 0, _ => []
  | k + 1, v => natToBytesBE k (v / 256) ++ [v % 256]

/-- Big-endian 32-bit words of a byte string. -/
def bytesToWordsBE : List Nat → List Nat
  | b0 :: b1 :: b2 :: b3 :: rest =>
      (((b0 * 256 + b1) * 256 + b2) * 256 + b3) :: bytesToWordsBE rest
  | _ => []

/-- SHA-1 message padding: append 0x80, zeros, and the 64-bit bit length. -/
def sha1Pad (msg : List Nat) : List Nat :=
  let len := msg.length
  let zeros := (120 - ((len + 1) % 64)) % 64
  msg ++ [128] ++ List.replicate zeros 0 ++ natToBytesBE 8 (len * 8)

/-- SHA-1 message-schedule extension from 16 to 80 words (fuel 64). -/
def sha1Extend : Nat → List Nat → List Nat
  | 0, w => w
  | n + 1, w =>
      let len := w.length
      let x := rotl32 1 ((((w.getD (len - 3) 0) ^^^ (w.getD (len - 8) 0))
        ^^^ w.getD (len - 14) 0) ^^^ w.getD (len - 16) 0)
      sha1Extend n (w ++ [x])

/-- SHA-1 round function. -/
def sha1F (i b c d : Nat) : Nat :=
  if i < 20 then (b &&& c) ||| ((b ^^^ 4294967295) &&& d)
  else if i < 40 then (b ^^^ c) ^^^ d
  else if i < 60 then ((b &&& c) ||| (b &&& d)) ||| (c &&& d)
  else (b ^^^ c) ^^^ d

/-- SHA-1 round constants. -/
def sha1K (i : Nat) : Nat :=
  if i < 20 then 1518500249
  else if i < 40 then 1859775393
  else if i < 60 then 2400959708
  else 3395469782

/-- The 80 SHA-1 compression rounds over the indexed schedule words. -/
def sha1Rounds : List (Nat × Nat) → Nat × Nat × Nat × Nat × Nat → Nat × Nat × Nat × Nat × Nat
  | [], s => s
  | (i, wi) :: rest, (a, b, c, d, e) =>
      let temp := (rotl32 5 a + sha1F i b c d + e + sha1K i + wi) % pow32
      sha1Rounds rest (temp, a, rotl32 30 b, c, d)

/-- Fold the SHA-1 compression function over the 64-byte blocks. -/
def sha1Blocks : List (List Nat) → Nat × Nat × Nat × Nat × Nat → Nat × Nat × Nat × Nat × Nat
  | [], h => h
  | blk :: rest, (h0, h1, h2, h3, h4) =>
      let w := sha1Extend 64 (bytesToWordsBE blk)
      let s := sha1Rounds (List.zip (List.range 80) w) (h0, h1, h2, h3, h4)
      sha1Blocks rest ((h0 + s.1) % pow32, (h1 + s.2.1) % pow32,
        (h2 + s.2.2.1) % pow32, (h3 + s.2.2.2.1) % pow32, (h4 + s.2.2.2.2) % pow32)

/-- crypto.utils.sha1: the SHA-1 digest (20 bytes) of a byte string. -/
def sha1 (data : List Nat) : List Nat :=
  let padded := sha1Pad data
  let h := sha1Blocks (chunksAux 64 padded.length padded)
    (1732584193, 4023233417, 2562383102, 271733878, 3285377520)
  natToBytesBE 4 h.1 ++ natToBytesBE 4 h.2.1 ++ natToBytesBE 4 h.2.2.1
    ++ natToBytesBE 4 h.2.2.2.1 ++ natToBytesBE 4 h.2.2.2.2

-- aes.py with-hash wrappers.

/-- Python slice plain_text[:-p].  For p = 0 Python evaluates this as
plain_text[:0], the EMPTY string (not the full string); for p ≥ len it is
also empty. -/
def pyTakeNeg (l : List Nat) (p : Nat) : List Nat :=
  if p = 0 then [] else l.take (l.length - p)

/-- The verification loop of aes_ige256_decrypt_with_hash (aes.py 135-137):
for padding in range(0, 16), return plain_text[:-padding] as soon as its
SHA-1 equals the 20-byte prefix hash.  First argument is the current padding
value, second is the remaining fuel (16 at the top call). -/
def hashScan (plain_hash plain_text : List Nat) : Nat → Nat → Option (List Nat)
  | _, 0 => none
  | p, fuel + 1 =>
      let cand := pyTakeNeg plain_text p
      if sha1 cand = plain_hash then some cand
      else hashScan plain_hash plain_text (p + 1) fuel

/-- aes.py aes_ige256_encrypt_with_hash: prepend the SHA-1 of the plaintext
and encrypt. -/
def aes_ige256_encrypt_with_hash (E : List Nat → List Nat) (urandom : Nat → List Nat)
    (plain_text key iv : List Nat) : Except PyExc (List Nat) :=
  aes_ige256_encrypt E urandom (sha1 plain_text ++ plain_text) key iv

/-- aes.py aes_ige256_decrypt_with_hash: decrypt, split off the 20-byte hash
prefix, and scan paddings 0..15 for a SHA-1 match; raise SecurityError when
none matches. -/
def aes_ige256_decrypt_with_hash (D : List Nat → List Nat)
    (cipher_text key iv : List Nat) : Except PyExc (List Nat) :=
  match aes_ige256_decrypt D cipher_text key iv with
  | .error e => .error e
  | .ok decrypted =>
      match hashScan (decrypted.take 20) (decrypted.drop 20) 0 16 with
      | some r => .ok r
      | none => .error (.securityError "SHA-1 hash verification failed. The decrypted data does not match the expected integrity check. Possible causes: incorrect decryption key, data corruption, or tampering.")

set_option maxRecDepth 100000 in
set_option maxHeartbeats 4000000 in
/-- C1: the claimed round trip decrypt_with_hash(encrypt_with_hash(p)) = p
FAILS on the code: for a plaintext of 12 bytes (so hash + plaintext is
already a multiple of 16 and nothing is padded), the verification loop
checks plain_text[:-padding] for padding in range(0, 16), and for padding=0
that slice is empty, so the full (unpadded) plaintext is never hashed; the
function raises SecurityError although the data is intact.  Evaluated here
with the identity block cipher and all-zero key/iv. -/
theorem aes_ige256_with_hash_roundtrip_failure :
    (aes_ige256_encrypt_with_hash id (fun n => List.replicate n 0)
        (List.replicate 12 0) (List.replicate 32 0) (List.replicate 32 0)).bind
      (fun ct => aes_ige256_decrypt_with_hash id ct
        (List.replicate 32 0) (List.replicate 32 0))
      = .error (.securityError "SHA-1 hash verification failed. The decrypted data does not match the expected integrity check. Possible causes: incorrect decryption key, data corruption, or tampering.") := by
  rfl

-- public_key.py fingerprints.

/-- Python attribute access `result.finalize()` where `result` is a bytes
object: bytes has no finalize attribute, so the access raises
AttributeError.  (crypto.utils.sha1 already calls finalize and returns
bytes, unlike a hashlib digest object.) -/
def bytesFinalize (_digest : List Nat) : Except PyExc (List Nat) :=
  .error (.attributeError "bytes object has no attribute finalize")

/-- Modelled from the spec: Long.from_bytes from gadgets.byteutils (absent
from src) reads a signed 64-bit big-endian integer from 8 bytes. -/
def longFromBytesBE (bs : List Nat) : Int :=
  let v : Nat := bs.foldl (fun acc b => acc * 256 + b) 0
  if v < 9223372036854775808 then (v : Int) else (v : Int) - 18446744073709551616

/-- public_key.py PublicKey.get_fingerprint: hash the serialized
rsa_public_key(n, e) with crypto.utils.sha1, then call `.finalize()` on the
result and keep the last 8 bytes.  `serialized` stands for the TL-serialized
rsa_public_key bytes (the generated TL layer is not under src). -/
def get_fingerprint (serialized : List Nat) : Except PyExc Int :=
  let result := sha1 serialized
  match bytesFinalize result with
  | .error e => .error e
  | .ok fb => .ok (longFromBytesBE (fb.drop (fb.length - 8)))

/-- public_key.py add_public_key: compute the key fingerprint and register
the key in PUBLIC_KEY_MAP under it. -/
def add_public_key (pkmap : List (Int × List Nat)) (serialized : List Nat) :
    Except PyExc (List (Int × List Nat)) :=
  match get_fingerprint serialized with
  | .error e => .error e
  | .ok fp => .ok ((fp, serialized) :: pkmap)

/-- C8: contrary to the claim, PublicKey.get_fingerprint never returns a
fingerprint: crypto.utils.sha1 already returns finalized bytes, so the
`result.finalize()` call raises AttributeError on every input, and
add_public_key therefore never registers a key. -/
theorem get_fingerprint_always_raises (serialized : List Nat)
    (pkmap : List (Int × List Nat)) :
    get_fingerprint serialized
      = .error (.attributeError "bytes object has no attribute finalize") ∧
    add_public_key pkmap serialized
      = .error (.attributeError "bytes object has no attribute finalize") :=
  ⟨rfl, rfl⟩

-- network/utils.py State.generate_msg_id.

/-- The rounding loop of generate_msg_id (network/utils.py lines 88-89):
increment until the value is a multiple of 4. -/
def roundUp4 (m : Int) : Int :=
  if m % 4 = 0 then m else roundUp4 (m + 1)
termination_by ((-m) % 4).toNat
decreasing_by
  simp_wf
  omega

/-- network/utils.py State.generate_msg_id: `msg_id = server_time() << 32`;
if it is not above `last_msg_id`, bump to `last_msg_id + 1`; round up to a
multiple of 4; store and return.  Returns (msg_id, new last_msg_id). -/
def generate_msg_id (server_time last_msg_id : Int) : Int × Int :=
  let msg_id := server_time * 4294967296
  let msg_id := if msg_id ≤ last_msg_id then last_msg_id + 1 else msg_id
  let msg_id := roundUp4 msg_id
  (msg_id, msg_id)

/-- The msg_ids produced by a sequence of generate_msg_id calls with the
given server times, threading last_msg_id through the State. -/
def runMsgIds : List Int → Int → List Int
  | [], _ => []
  | t :: ts, last =>
      let r := generate_msg_id t last
      r.1 :: runMsgIds ts r.2

theorem roundUp4_spec (m : Int) : roundUp4 m % 4 = 0 ∧ m ≤ roundUp4 m := by
  generalize h : ((-m) % 4).toNat = n
  induction n using Nat.strong_induction_on generalizing m with
  | _ n ih =>
      rw [roundUp4]
      split
      · exact ⟨by assumption, le_refl m⟩
      · rename_i hm
        have hlt : ((-(m + 1)) % 4).toNat < n := by omega
        have := ih _ hlt (m + 1) rfl
        exact ⟨this.1, by omega⟩

theorem generate_msg_id_fst (t last : Int) :
    (generate_msg_id t last).1
      = roundUp4 (if t * 4294967296 ≤ last then last + 1 else t * 4294967296) := rfl

theorem generate_msg_id_snd (t last : Int) :
    (generate_msg_id t last).2 = (generate_msg_id t last).1 := rfl

theorem generate_msg_id_gt (t last : Int) : last < (generate_msg_id t last).1 := by
  rw [generate_msg_id_fst]
  split
  · have := (roundUp4_spec (last + 1)).2
    omega
  · rename_i h
    have := (roundUp4_spec (t * 4294967296)).2
    omega

theorem runMsgIds_chain (ts : List Int) :
    ∀ last : Int, List.Chain' (· < ·) (last :: runMsgIds ts last) := by
  induction ts with
  | nil => intro last; exact List.chain'_singleton last
  | cons t ts ih =>
      intro last
      show List.Chain' (· < ·)
        (last :: (generate_msg_id t last).1 :: runMsgIds ts (generate_msg_id t last).2)
      rw [List.chain'_cons]
      refine ⟨generate_msg_id_gt t last, ?_⟩
      have h := ih (generate_msg_id t last).2
      rw [generate_msg_id_snd] at h
      exact h

/-- C2: every generate_msg_id call returns the shifted server time, bumped
to last_msg_id + 1 when not larger than last_msg_id, rounded up to the next
multiple of 4; it stores the result as the new last_msg_id, the result is a
multiple of 4 and strictly above the previous last_msg_id; consequently any
sequence of calls on one State yields strictly increasing msg_ids, all
multiples of 4. -/
theorem generate_msg_id_monotone_mod4 (server_time last : Int) (ts : List Int) :
    (generate_msg_id server_time last).1
        = roundUp4 (if server_time * 4294967296 ≤ last then last + 1
            else server_time * 4294967296) ∧
    (generate_msg_id server_time last).1 % 4 = 0 ∧
    last < (generate_msg_id server_time last).1 ∧
    (generate_msg_id server_time last).2 = (generate_msg_id server_time last).1 ∧
    List.Chain' (· < ·) (runMsgIds ts last) ∧
    (∀ id ∈ runMsgIds ts last, id % 4 = 0) := by
  refine ⟨rfl, ?_, generate_msg_id_gt server_time last, rfl,
    (runMsgIds_chain ts last).tail, ?_⟩
  · rw [generate_msg_id_fst]
    exact (roundUp4_spec _).1
  · induction ts generalizing last with
    | nil => intro x hx; simp [runMsgIds] at hx
    | cons t ts ih =>
        intro x hx
        rw [show runMsgIds (t :: ts) last
          = (generate_msg_id t last).1 :: runMsgIds ts (generate_msg_id t last).2
          from rfl, List.mem_cons] at hx
        rcases hx with hx | hx
        · subst hx
          rw [generate_msg_id_fst]
          exact (roundUp4_spec _).1
        · exact ih _ x hx

-- core/methods/updates.py Updates._handle_pts_update.

/-- An incoming update carrying pts (pts_count defaults to 0 when absent,
as in getattr(update, 'pts_count', 0)). -/
structure PtsUpd where
  pts : Int
  pts_count : Int
deriving DecidableEq

/-- The per-state update bookkeeping visible to _handle_pts_update:
state_info.pts, plus the reordering buffer and difference-fetch flag owned
by UpdateState. -/
structure UpdateStateM where
  pts : Int
  pending : List PtsUpd
  fetch_scheduled : Bool
deriving DecidableEq

/-- What _handle_pts_update did with the update. -/
inductive PtsOutcome where
  | applied
  | discarded
  | buffered
  | unreachable
deriving DecidableEq

/-- Modelled from the spec: UpdateState.add (core/internal/update_state.py
is not under src) buffers the update in the reordering set and schedules
the debounced fetch_difference; represented by appending to the pending
buffer and raising the fetch flag; state_info.pts is not touched. -/
def update_state_add (st : UpdateStateM) (u : PtsUpd) : UpdateStateM :=
  { st with pending := st.pending ++ [u], fetch_scheduled := true }

/-- updates.py Updates._handle_pts_update (lines 119-153): apply when
local_pts == 0 or local_pts + pts_count == pts (setting state_info.pts to
pts); discard when local_pts + pts_count > pts; buffer (UpdateState.add)
when local_pts + pts_count < pts.  The Python if/elif chain has no final
else, so the impossible remaining case leaves the state unchanged. -/
def handle_pts_update (st : UpdateStateM) (u : PtsUpd) : UpdateStateM × PtsOutcome :=
  let local_pts := st.pts
  if local_pts = 0 ∨ local_pts + u.pts_count = u.pts then
    ({ st with pts := u.pts }, .applied)
  else if local_pts + u.pts_count > u.pts then
    (st, .discarded)
  else if local_pts + u.pts_count < u.pts then
    (update_state_add st u, .buffered)
  else
    (st, .unreachable)

/-- C3: the three branches of the pts state machine: apply-and-commit when
local == 0 or local + pts_count == pts, discard (state unchanged) when
local + pts_count > pts, buffer-and-schedule-fetch (pts unchanged) when
local + pts_count < pts. -/
theorem handle_pts_update_cases (st : UpdateStateM) (u : PtsUpd) :
    (st.pts = 0 ∨ st.pts + u.pts_count = u.pts →
      handle_pts_update st u = ({ st with pts := u.pts }, .applied)) ∧
    (¬(st.pts = 0 ∨ st.pts + u.pts_count = u.pts) →
      st.pts + u.pts_count > u.pts →
      handle_pts_update st u = (st, .discarded)) ∧
    (¬(st.pts = 0 ∨ st.pts + u.pts_count = u.pts) →
      st.pts + u.pts_count < u.pts →
      handle_pts_update st u
        = ({ st with pending := st.pending ++ [u], fetch_scheduled := true },
            .buffered)) := by
  refine ⟨?_, ?_, ?_⟩
  · intro h
    unfold handle_pts_update
    rw [if_pos h]
  · intro h hgt
    unfold handle_pts_update
    rw [if_neg h, if_pos hgt]
  · intro h hlt
    unfold handle_pts_update
    rw [if_neg h, if_neg (by omega), if_pos hlt]
    rfl

/-- Closed instance of the C3 case split: state pts=100 receiving
(pts=103, pts_count=1) buffers the update and schedules a fetch, leaving
pts at 100. -/
theorem handle_pts_update_cases_witness :
    handle_pts_update { pts := 100, pending := [], fetch_scheduled := false }
        { pts := 103, pts_count := 1 }
      = ({ pts := 100,
           pending := [{ pts := 103, pts_count := 1 }],
           fetch_scheduled := true }, .buffered) :=
  (handle_pts_update_cases
    { pts := 100, pending := [], fetch_scheduled := false }
    { pts := 103, pts_count := 1 }).2.2 (by decide) (by decide)

-- session/sqlite_session.py BaseSqlite.get_server_salt.

/-- A row of the server-salts table. -/
structure SaltRow where
  salt : Int
  valid_since : Int
  valid_until : Int
deriving DecidableEq

/-- sqlite_session.py BaseSqlite.get_server_salt: SELECT salt, valid_until
FROM server-salts WHERE valid_since < now AND valid_until > now LIMIT 1,
falling back to (0, 0) when no row matches. -/
def get_server_salt (table : List SaltRow) (now : Int) : Int × Int :=
  match table.find? (fun r => decide (r.valid_since < now ∧ r.valid_until > now)) with
  | some r => (r.salt, r.valid_until)
  | none => (0, 0)

/-- C9 counterexample: with no stored salt, get_server_salt(5) returns the
fallback (0, 0), whose valid_until = 0 is NOT greater than now = 5, so the
claim that every returned pair satisfies valid_until > now is false. -/
theorem get_server_salt_counterexample :
    get_server_salt [] 5 = (0, 0) ∧ ¬((get_server_salt [] 5).2 > 5) := by
  decide

/-- C9 amended: whenever the salt query finds a matching row, the returned
pair is that row's (salt, valid_until) and valid_until > now holds;
otherwise the fallback (0, 0) is returned (whose valid_until is not greater
than a non-negative now). -/
theorem get_server_salt_valid (table : List SaltRow) (now : Int) (r : SaltRow)
    (hfind : table.find?
      (fun r => decide (r.valid_since < now ∧ r.valid_until > now)) = some r) :
    get_server_salt table now = (r.salt, r.valid_until) ∧ now < r.valid_until := by
  have hp := List.find?_some hfind
  simp only [decide_eq_true_eq] at hp
  refine ⟨?_, hp.2⟩
  unfold get_server_salt
  rw [hfind]

/-- Closed instance of the amended C9: a table holding a salt valid on
(0, 10) queried at now = 5 returns it, with valid_until 10 > 5. -/
theorem get_server_salt_valid_witness :
    get_server_salt [{ salt := 7, valid_since := 0, valid_until := 10 }] 5
        = (7, 10) ∧ (5 : Int) < 10 :=
  get_server_salt_valid [{ salt := 7, valid_since := 0, valid_until := 10 }] 5
    { salt := 7, valid_since := 0, valid_until := 10 } (by decide)

-- core/internal/cache_entities.py and core/methods/updates.py entity cache.

/-- enums.EntityType. -/
inductive EntityType where
  | bot
  | user
  | group
  | channel
  | megagroup
  | gigagroup
deriving DecidableEq

/-- models.Entity (models.py lines 8-49); is_self is coerced to bool in the
constructor. -/
structure Entity where
  id : Int
  type : Option EntityType
  access_hash : Option Int
  name : Option String
  is_self : Bool
  username : Option String
  phone_number : Option String
deriving DecidableEq

/-- Python truthiness of an Optional[int]: None and 0 are falsy. -/
def truthyOptInt : Option Int → Bool
  | none => false
  | some v => v != 0

/-- helpers.get_display_name for a User: join of first_name and last_name,
dropping None and empty parts. -/
def get_display_name_user (first_name last_name : Option String) : String :=
  String.join ((([first_name, last_name].filterMap id).filter (fun s => s != "")))

/-- helpers.get_display_name for a chat: its title, or empty when absent. -/
def get_display_name_chat (title : Option String) : String :=
  String.join (([title].filterMap id).filter (fun s => s != ""))

/-- tl types.TypeUser as used by CacheEntities.add_users: UserEmpty or a
full User with the attributes the cache reads. -/
inductive TypeUser where
  | userEmpty (id : Int)
  | user (id : Int) (access_hash : Option Int) (isMin : Bool) (bot : Bool)
      (is_self : Bool) (username : Option String) (phone : Option String)
      (first_name : Option String) (last_name : Option String)
deriving DecidableEq

/-- tl types.TypeChat as used by CacheEntities.add_chats: a basic Chat (no
access_hash attribute), a Channel, or the forbidden variants. -/
inductive TypeChat where
  | chat (id : Int) (title : Option String)
  | channel (id : Int) (access_hash : Option Int) (isMin : Bool)
      (megagroup : Bool) (gigagroup : Bool) (title : Option String)
  | chatForbidden (id : Int)
  | channelForbidden (id : Int)
deriving DecidableEq

/-- Modelled from the spec: the bounded LRU Cache from gadgets.utils (the
Cache class is absent from src).  add_or_update stores the value under the
key, moving it to the front; pop removes the key; the eviction run (check)
only removes entries, so it cannot introduce invariant violations and is
not modelled further.  The cache is an association list, most recent
first. -/
def cache_add_or_update (c : List (Int × Entity)) (k : Int) (v : Entity) :
    List (Int × Entity) :=
  (k, v) :: c.filter (fun p => p.1 != k)

/-- Modelled from the spec: Cache.pop removes the key from the cache
(CacheEntities.pop then persists the removed entity, which does not change
the cache contents). -/
def cache_pop (c : List (Int × Entity)) (k : Int) : List (Int × Entity) :=
  c.filter (fun p => p.1 != k)

/-- CacheEntities.get (cache_entities.py lines 32-41): look the id up in
the cache; on a miss read through to the session store and, when found
there, insert it.  Returns the entity (if any) and the updated cache. -/
def cache_get (c : List (Int × Entity)) (sessionEntity : Int → Option Entity)
    (k : Int) : Option Entity × List (Int × Entity) :=
  match (c.find? (fun p => p.1 == k)).map Prod.snd with
  | some e => (some e, c)
  | none =>
      match sessionEntity k with
      | some e => (some e, cache_add_or_update c e.id e)
      | none => (none, c)

/-- CacheEntities.add_users, one user (cache_entities.py lines 43-67):
UserEmpty pops; a user is cached only when access_hash is truthy and min
is false. -/
def add_users_step (c : List (Int × Entity)) (u : TypeUser) : List (Int × Entity) :=
  match u with
  | .userEmpty id => cache_pop c id
  | .user id access_hash isMin bot is_self username phone first_name last_name =>
      if truthyOptInt access_hash && !isMin then
        cache_add_or_update c id
          { id := id
            type := some (if bot then .bot else .user)
            access_hash := access_hash
            name := some (get_display_name_user first_name last_name)
            is_self := is_self
            username := username
            phone_number := phone }
      else c

/-- CacheEntities.add_users over a user list (the final self.check() only
evicts, see cache_add_or_update). -/
def add_users (c : List (Int × Entity)) (users : List TypeUser) :
    List (Int × Entity) :=
  users.foldl add_users_step c

/-- CacheEntities.add_chats, one chat (cache_entities.py lines 71-106):
forbidden chats pop; a basic Chat has no access_hash attribute (getattr
yields None) and is never cached; a channel is cached only when
access_hash is truthy and min is false. -/
def add_chats_step (c : List (Int × Entity)) (ch : TypeChat) : List (Int × Entity) :=
  match ch with
  | .chatForbidden id => cache_pop c id
  | .channelForbidden id => cache_pop c id
  | .chat _ _ => c
  | .channel id access_hash isMin megagroup gigagroup title =>
      if truthyOptInt access_hash && !isMin then
        cache_add_or_update c id
          { id := id
            type := some (if megagroup then .megagroup
              else if gigagroup then .gigagroup else .channel)
            access_hash := access_hash
            name := some (get_display_name_chat title)
            is_self := false
            username := none
            phone_number := none }
      else c

/-- CacheEntities.add_chats over a chat list. -/
def add_chats (c : List (Int × Entity)) (chats : List TypeChat) :
    List (Int × Entity) :=
  chats.foldl add_chats_step c

/-- Updates._get_update_state, channel branch (updates.py lines 586-597):
look the channel entity up (read-through); when absent, create a
placeholder Entity(channel_id, None, access_hash=0) and add_or_update it
into the cache.  Returns the entity used for the new state and the updated
cache. -/
def get_update_state_entity (c : List (Int × Entity))
    (sessionEntity : Int → Option Entity) (channel_id : Int) :
    Entity × List (Int × Entity) :=
  match cache_get c sessionEntity channel_id with
  | (some e, c2) => (e, c2)
  | (none, c2) =>
      let e : Entity :=
        { id := channel_id
          type := none
          access_hash := some 0
          name := none
          is_self := false
          username := none
          phone_number := none }
      (e, cache_add_or_update c2 channel_id e)

/-- The cached-entity invariant claimed by the spec: a nonzero, non-None
access_hash (cached entries also never come from min objects). -/
def entity_ok (e : Entity) : Bool :=
  truthyOptInt e.access_hash

/-- The cache-wide invariant: every stored entity satisfies entity_ok. -/
def cache_inv (c : List (Int × Entity)) : Prop :=
  ∀ p ∈ c, entity_ok p.2 = true

/-- C4 counterexample: creating a channel update state for an unknown
channel (empty cache, empty session store, channel_id 5) inserts the
placeholder entity with access_hash = 0 into the cache, violating the
claimed invariant. -/
theorem cache_entities_invariant_counterexample :
    ¬ cache_inv (get_update_state_entity [] (fun _ => none) 5).2 := by
  unfold cache_inv
  decide

theorem cache_pop_inv (c : List (Int × Entity)) (k : Int) (hc : cache_inv c) :
    cache_inv (cache_pop c k) := by
  intro p hp
  exact hc p (List.mem_of_mem_filter hp)

theorem cache_add_or_update_inv (c : List (Int × Entity)) (k : Int) (v : Entity)
    (hc : cache_inv c) (hv : entity_ok v = true) :
    cache_inv (cache_add_or_update c k v) := by
  intro p hp
  rcases List.mem_cons.mp hp with hp | hp
  · rw [hp]
    exact hv
  · exact hc p (List.mem_of_mem_filter hp)

theorem add_users_step_inv (c : List (Int × Entity)) (u : TypeUser)
    (hc : cache_inv c) : cache_inv (add_users_step c u) := by
  cases u with
  | userEmpty id => exact cache_pop_inv c id hc
  | user id access_hash isMin bot is_self username phone first_name last_name =>
      simp only [add_users_step]
      split
      · rename_i hguard
        refine cache_add_or_update_inv c id _ hc ?_
        unfold entity_ok
        exact (Bool.and_eq_true _ _ |>.mp hguard).1
      · exact hc

theorem add_chats_step_inv (c : List (Int × Entity)) (ch : TypeChat)
    (hc : cache_inv c) : cache_inv (add_chats_step c ch) := by
  cases ch with
  | chatForbidden id => exact cache_pop_inv c id hc
  | channelForbidden id => exact cache_pop_inv c id hc
  | chat id title => exact hc
  | channel id access_hash isMin megagroup gigagroup title =>
      simp only [add_chats_step]
      split
      · rename_i hguard
        refine cache_add_or_update_inv c id _ hc ?_
        unfold entity_ok
        exact (Bool.and_eq_true _ _ |>.mp hguard).1
      · exact hc

/-- C4 amended: add_users and add_chats only insert entities with truthy
(non-None, nonzero) access_hash taken from non-min objects, so they
preserve the cache invariant; the invariant over the whole cache
nevertheless fails at quiescent points because Updates._get_update_state
inserts a placeholder entity with access_hash = 0 for an unknown channel
(see the counterexample). -/
theorem cache_entities_add_preserves_invariant (c : List (Int × Entity))
    (users : List TypeUser) (chats : List TypeChat) (hc : cache_inv c) :
    cache_inv (add_users c users) ∧ cache_inv (add_chats c chats) := by
  constructor
  · unfold add_users
    induction users generalizing c with
    | nil => exact hc
    | cons u us ih => exact ih _ (add_users_step_inv c u hc)
  · unfold add_chats
    induction chats generalizing c with
    | nil => exact hc
    | cons ch chs ih => exact ih _ (add_chats_step_inv c ch hc)

/-- Closed instance of the amended C4: starting from the empty cache,
adding one regular user and one channel yields caches satisfying the
invariant. -/
theorem cache_entities_add_preserves_invariant_witness :
    cache_inv (add_users []
      [.user 1 (some 99) false false false none none (some "a") none]) ∧
    cache_inv (add_chats []
      [.channel 2 (some 55) false false false (some "t")]) :=
  cache_entities_add_preserves_invariant []
    [.user 1 (some 99) false false false none none (some "a") none]
    [.channel 2 (some 55) false false false (some "t")]
    (fun p hp => absurd hp (List.not_mem_nil p))

-- network/utils.py RequestQueue.resolve handshake gating.

/-- The query kinds relevant to the handshake gate: the three MTProto
plain-text requests, auth.bindTempAuthKey, and everything else (named). -/
inductive QueryType where
  | reqPqMulti
  | reqDHParams
  | setClientDHParams
  | bindTempAuthKey
  | plain (name : String)
deriving DecidableEq

/-- network/utils.py is_unencrypted_request (lines 414-422): ReqPqMulti,
ReqDHParams or SetClientDHParams. -/
def is_unencrypted_request : QueryType → Bool
  | .reqPqMulti => true
  | .reqDHParams => true
  | .setClientDHParams => true
  | _ => false

/-- What RequestQueue.resolve does with a popped request at the handshake
gate (lines 289-307): fail its future with SecurityError and return it as
an unencrypted message, return it as an unencrypted message untouched, or
proceed to encrypted packing (with the bind flag recorded). -/
inductive GateOutcome where
  | failedSecurity (msg : String)
  | sentUnencrypted
  | proceedEncrypted (isBindRequest : Bool)
deriving DecidableEq

/-- The handshake gate of RequestQueue.resolve: when the handshake is not
complete and the query is not auth.bindTempAuthKey, a non-unencrypted
query gets its future failed with SecurityError (and the request is still
returned as an unencrypted message); an unencrypted query is sent as an
unencrypted message; bindTempAuthKey, and everything once the handshake is
complete, proceeds to encrypted packing. -/
def resolve_gate (handshake_complete : Bool) (query : QueryType) : GateOutcome :=
  if !handshake_complete then
    let is_bind_request := query == .bindTempAuthKey
    if !is_bind_request then
      if !(is_unencrypted_request query) then
        .failedSecurity "Handshake is not yet complete"
      else
        .sentUnencrypted
    else
      .proceedEncrypted true
  else
    .proceedEncrypted false

/-- C5: whenever the handshake is not complete, resolving a request whose
query is neither one of the MTProto unencrypted requests nor
auth.bindTempAuthKey fails that request's future with SecurityError. -/
theorem resolve_gate_security (query : QueryType)
    (hbind : query ≠ .bindTempAuthKey)
    (hunenc : is_unencrypted_request query = false) :
    resolve_gate false query = .failedSecurity "Handshake is not yet complete" := by
  have h1 : (query == QueryType.bindTempAuthKey) = false :=
    beq_eq_false_iff_ne.mpr hbind
  simp [resolve_gate, h1, hunenc]

/-- Closed instance of C5: an ordinary RPC (users.GetUsers) resolved before
the handshake completes is failed with SecurityError. -/
theorem resolve_gate_security_witness :
    resolve_gate false (.plain "users.GetUsers")
      = .failedSecurity "Handshake is not yet complete" :=
  resolve_gate_security (.plain "users.GetUsers") (by decide) (by decide)

-- core/telegram.py Telegram.__call__ data-center migration.

/-- Outcome of connection.invoke (the Connection class is not under src):
a result, a SeeOtherError carrying the target dc_id and the triggering
request, or some other error. -/
inductive InvokeOutcome (α : Type) where
  | ok (v : α)
  | seeOther (dc_id : Int) (request : Nat)
  | otherError
deriving DecidableEq

/-- Outcome of the GetUsers([InputUserSelf]) RPC issued by get_me:
the user, an UnauthorizedError, or another error. -/
inductive GetUsersOutcome (β : Type) where
  | ok (u : β)
  | unauthorized
  | otherFailure
deriving DecidableEq

/-- core/methods/common.py Common.get_me (lines 11-39): returns the user on
success, None (and clears the authorized flag) on UnauthorizedError, and
propagates any other exception. -/
def get_me (β : Type) (getUsers : GetUsersOutcome β) :
    Except Unit (Option β) :=
  match getUsers with
  | .ok u => .ok (some u)
  | .unauthorized => .ok none
  | .otherFailure => .error ()

/-- What the caller of Telegram.__call__ observes, together with the list
of data centers migrated to (in order). -/
inductive CallOutcome (α : Type) where
  | result (v : α)
  | seeOtherRaised (dc_id : Int) (request : Nat)
  | otherRaised
deriving DecidableEq

/-- core/telegram.py Telegram.__call__ (lines 111-134): invoke; on
SeeOtherError run get_me, and when it still returns a user re-raise the
error without migrating, otherwise migrate to the error's dc_id, resend
the triggering request and return its result.  connection.invoke,
connection.migrate and connection.resend live outside src and enter as
outcome parameters; `resend` gives the result of resending a request.
Returns (data centers migrated to, what the caller observes). -/
def telegram_call (α β : Type) (invoke : InvokeOutcome α)
    (getUsers : GetUsersOutcome β) (resend : Nat → α) :
    List Int × CallOutcome α :=
  match invoke with
  | .ok v => ([], .result v)
  | .otherError => ([], .otherRaised)
  | .seeOther dc_id request =>
      match get_me β getUsers with
      | .error _ => ([], .otherRaised)
      | .ok (some _) => ([], .seeOtherRaised dc_id request)
      | .ok none => ([dc_id], .result (resend request))

/-- C6: when invoke raises SeeOtherError, a still-succeeding get_me makes
the client re-raise the error with no migration, while a get_me that finds
no authorized user makes it migrate exactly once to the indicated dc_id,
resend the triggering request and hand its result (one result, no
exception) to the caller. -/
theorem telegram_call_migration (α β : Type) (invoke : InvokeOutcome α)
    (getUsers : GetUsersOutcome β) (resend : Nat → α)
    (dc_id : Int) (request : Nat) (u : β)
    (hinvoke : invoke = .seeOther dc_id request) :
    (getUsers = .ok u →
      telegram_call α β invoke getUsers resend
        = ([], .seeOtherRaised dc_id request)) ∧
    (getUsers = .unauthorized →
      telegram_call α β invoke getUsers resend
        = ([dc_id], .result (resend request))) := by
  subst hinvoke
  constructor
  · intro h
    subst h
    rfl
  · intro h
    subst h
    rfl

/-- Closed instance of C6 (α = β = Nat): a SeeOtherError pointing at DC 2:
with an authorized identity the error is re-raised and nothing migrates;
without one the client migrates to DC 2 and returns the resent result 42. -/
theorem telegram_call_migration_witness :
    (telegram_call Nat Nat (.seeOther 2 9) (.ok 1) (fun _ => 42)
        = ([], .seeOtherRaised 2 9)) ∧
    (telegram_call Nat Nat (.seeOther 2 9) .unauthorized (fun _ => 42)
        = ([2], .result 42)) :=
  ⟨(telegram_call_migration Nat Nat (.seeOther 2 9) (.ok 1) (fun _ => 42)
      2 9 1 rfl).1 rfl,
   (telegram_call_migration Nat Nat (.seeOther 2 9) .unauthorized (fun _ => 42)
      2 9 1 rfl).2 rfl⟩

/-- Closed instance of C2: server time 1, last_msg_id 0, then two further
calls; the first msg_id equals the rounded shift, is a multiple of 4 and
positive, and the msg_id sequence is strictly increasing with every element
a multiple of 4. -/
theorem generate_msg_id_monotone_mod4_witness :
    (generate_msg_id 1 0).1
        = roundUp4 (if (1 : Int) * 4294967296 ≤ 0 then 0 + 1
            else 1 * 4294967296) ∧
    (generate_msg_id 1 0).1 % 4 = 0 ∧
    (0 : Int) < (generate_msg_id 1 0).1 ∧
    (generate_msg_id 1 0).2 = (generate_msg_id 1 0).1 ∧
    List.Chain' (· < ·) (runMsgIds [1, 1] 0) ∧
    (∀ id ∈ runMsgIds [1, 1] 0, id % 4 = 0) :=
  generate_msg_id_monotone_mod4 1 0 [1, 1]
